import Mathlib

/-!
Shallow embedding of the series translate/draw core of the charting library:
the map series join, bounding-box and path-translation pipeline
(`MapSeries.setData`, `getBox`, `translate`, `translatePath`, `drawPoints`),
the column-pyramid geometry derivation (`ColumnPyramidSeries.translate`) and
the stock comparison value pipeline (`Series.prototype.initCompare`).

Numbers are modelled as exact rationals; a JS arithmetic result that is not a
finite number (NaN or an infinity, arising only from division by zero here) is
modelled as `none` of an `Option ℚ`.  JS `undefined`/`null` slots are also
`Option`s where a definition needs them.
-/

/-- `Number.MAX_VALUE` as an exact rational, `(2 - 2⁻⁵²)·2¹⁰²³`. -/
def MAX_VALUE : ℚ := 2 ^ 1024 - 2 ^ 971

/-- JS `Math.round`: round half toward positive infinity. -/
def jsRound (q : ℚ) : ℚ := ((⌊q + 1 / 2⌋ : ℤ) : ℚ)

/-- JS `x || d` on an optional number: `undefined` and `0` are falsy. -/
def jsOrNum (x : Option ℚ) (d : ℚ) : ℚ :=
  match x with
  | none => d
  | some v => if v = 0 then d else v

/-- JS division as a partial operation: a zero divisor yields a non-finite
number (`Infinity` or `NaN`), modelled as `none`. -/
def jsDiv (a b : ℚ) : Option ℚ := if b = 0 then none else some (a / b)

/-! ## Stock comparison value pipeline (`Series.prototype.initCompare`) -/

/-- The two compare modes for which `initCompare` installs a `modifyValue`
function (any other `compare` option leaves `modifyValue` unset). -/
inductive CompareMode
  | value
  | percent
deriving DecidableEq, Repr

/-- The `modifyValue` closure installed by `Series.prototype.initCompare`.
Arguments: the compare mode, the series' `options.compareBase`, the series'
resolved baseline `compareValue`, and the incoming `value`.  When both the
value and the baseline are defined the value is remapped per mode; otherwise
the function returns `0`.  In percent mode a zero baseline makes the JS
division non-finite, hence `none`. -/
def modifyValue (mode : CompareMode) (compareBase : Option ℚ)
    (compareValue : Option ℚ) (value : Option ℚ) : Option ℚ :=
  match value, compareValue with
  | some v, some cv =>
    match mode with
    | .value => some (v - cv)
    | .percent =>
      if cv = 0 then none
      else some (100 * (v / cv) - (if compareBase = some 100 then 0 else 100))
  | _, _ => some 0

/-! ## Fast-transform rounding dampening (`MapSeries.drawPoints`) -/

/-- The group-level transform computed in the fast (non-full-translate) branch
of `MapSeries.drawPoints`. -/
structure FastParams where
  scaleX : ℚ
  scaleY : ℚ
  translateX : ℚ
  translateY : ℚ
deriving DecidableEq, Repr

/-- The rounding-error dampening step of `MapSeries.drawPoints`: when both
scale factors are strictly between `0.99` and `1.01`, snap the scales to `1`
and round the translations to whole pixels; otherwise leave everything as
computed. -/
def dampenTransform (t : FastParams) : FastParams :=
  if 0.99 < t.scaleX ∧ t.scaleX < 1.01 ∧ 0.99 < t.scaleY ∧ t.scaleY < 1.01 then
    { scaleX := 1, scaleY := 1,
      translateX := jsRound t.translateX, translateY := jsRound t.translateY }
  else t

/-- The snapshot recorded by `drawPoints` at full-translate time. -/
structure BaseTrans where
  originX : ℚ
  originY : ℚ
  transAX : ℚ
  transAY : ℚ
deriving DecidableEq, Repr

/-- The fast branch of `MapSeries.drawPoints`: scale is the ratio of current
to snapshot `transA` per axis, translation the pixel position of the snapshot
origin; then the dampening step is applied.  The pixel positions of the
origin are taken as inputs (`xAxis.toPixels(baseTrans.originX, true)` and its
y-axis counterpart). -/
def fastTransform (xTransA yTransA : ℚ) (bt : BaseTrans)
    (originPxX originPxY : ℚ) : Option FastParams :=
  match jsDiv xTransA bt.transAX, jsDiv yTransA bt.transAY with
  | some sX, some sY =>
    some (dampenTransform
      { scaleX := sX, scaleY := sY,
        translateX := originPxX, translateY := originPxY })
  | _, _ => none

/-! ## Column-pyramid geometry (`ColumnPyramidSeries.translate`) -/

/-- The inputs of the per-point half-width derivation in
`ColumnPyramidSeries.translate`. -/
structure PyrIn where
  barW : ℚ
  barY : ℚ
  barH : ℚ
  topPointY : ℚ
  translatedThreshold : ℚ
  plotHeight : ℚ
  yAxisWidth : ℚ
  inverted : Bool
deriving DecidableEq, Repr

/-- The `(topXwidth, bottomXwidth)` pair computed by
`ColumnPyramidSeries.translate`.  The non-inverted computation guards a zero
`stackHeight` (`stackHeight ? … : 0`); the inverted branch recomputes both
widths from its own stack height without such a guard, so a zero inverted
stack height divides by zero. -/
def pyramidWidths (i : PyrIn) : Option ℚ × Option ℚ :=
  let stackHeight := i.plotHeight - i.topPointY - (i.plotHeight - i.translatedThreshold)
  let topXwidth : Option ℚ :=
    if stackHeight = 0 then some 0
    else jsDiv (i.barW * (i.barY - i.topPointY)) stackHeight
  let bottomXwidth : Option ℚ :=
    if stackHeight = 0 then some 0
    else jsDiv (i.barW * (i.barY + i.barH - i.topPointY)) stackHeight
  if i.inverted then
    let invBarPos := i.yAxisWidth - i.barY
    let stackHeight2 := i.topPointY - (i.yAxisWidth - i.translatedThreshold)
    (jsDiv (i.barW * (i.topPointY - invBarPos)) stackHeight2,
     jsDiv (i.barW * (i.topPointY - (invBarPos - i.barH))) stackHeight2)
  else
    (topXwidth, bottomXwidth)

/-! ## Path segments and `MapSeries.translatePath` -/

/-- An abstract SVG path segment: `M`, `L`, `C`, `Q` or `Z`. -/
inductive Seg
  | move (x y : ℚ)
  | line (x y : ℚ)
  | cubic (x1 y1 x2 y2 x y : ℚ)
  | quad (x1 y1 x y : ℚ)
  | close
deriving DecidableEq, Repr

/-- Per-axis translation state consumed by the map pipeline:
`{min, transA, minPixelPadding}` of an axis.  `min` may be undefined. -/
structure AxisState where
  min : Option ℚ
  transA : ℚ
  minPixelPadding : ℚ
deriving DecidableEq, Repr

/-- `MapSeries.translatePath` on a present path: each branch of the source's
per-segment `if`/`else` chain maps every coordinate by
`(coord - (min || 0)) * transA + minPixelPadding` with the x-axis state on X
coordinates and the y-axis state on Y coordinates, pushing a segment of the
same kind. -/
def translatePathSegs (xA yA : AxisState) : List Seg → List Seg
  | [] => []
  | .move x y :: rest =>
    .move ((x - jsOrNum xA.min 0) * xA.transA + xA.minPixelPadding)
      ((y - jsOrNum yA.min 0) * yA.transA + yA.minPixelPadding) ::
      translatePathSegs xA yA rest
  | .line x y :: rest =>
    .line ((x - jsOrNum xA.min 0) * xA.transA + xA.minPixelPadding)
      ((y - jsOrNum yA.min 0) * yA.transA + yA.minPixelPadding) ::
      translatePathSegs xA yA rest
  | .cubic x1 y1 x2 y2 x y :: rest =>
    .cubic ((x1 - jsOrNum xA.min 0) * xA.transA + xA.minPixelPadding)
      ((y1 - jsOrNum yA.min 0) * yA.transA + yA.minPixelPadding)
      ((x2 - jsOrNum xA.min 0) * xA.transA + xA.minPixelPadding)
      ((y2 - jsOrNum yA.min 0) * yA.transA + yA.minPixelPadding)
      ((x - jsOrNum xA.min 0) * xA.transA + xA.minPixelPadding)
      ((y - jsOrNum yA.min 0) * yA.transA + yA.minPixelPadding) ::
      translatePathSegs xA yA rest
  | .quad x1 y1 x y :: rest =>
    .quad ((x1 - jsOrNum xA.min 0) * xA.transA + xA.minPixelPadding)
      ((y1 - jsOrNum yA.min 0) * yA.transA + yA.minPixelPadding)
      ((x - jsOrNum xA.min 0) * xA.transA + xA.minPixelPadding)
      ((y - jsOrNum yA.min 0) * yA.transA + yA.minPixelPadding) ::
      translatePathSegs xA yA rest
  | .close :: rest => .close :: translatePathSegs xA yA rest

/-- `MapSeries.translatePath`: an absent path yields the empty result. -/
def translatePath (xA yA : AxisState) (path : Option (List Seg)) : List Seg :=
  match path with
  | none => []
  | some segs => translatePathSegs xA yA segs

/-- Specification-side pixel mapping of one coordinate:
`(coord - domainMin) * transA + pixelPadding`. -/
def toPx (a : AxisState) (c : ℚ) : ℚ :=
  (c - jsOrNum a.min 0) * a.transA + a.minPixelPadding

/-- Specification-side per-segment transform: same kind, every X coordinate
through the x-axis mapping, every Y coordinate through the y-axis mapping. -/
def segTranslateSpec (xA yA : AxisState) : Seg → Seg
  | .move x y => .move (toPx xA x) (toPx yA y)
  | .line x y => .line (toPx xA x) (toPx yA y)
  | .cubic x1 y1 x2 y2 x y =>
    .cubic (toPx xA x1) (toPx yA y1) (toPx xA x2) (toPx yA y2)
      (toPx xA x) (toPx yA y)
  | .quad x1 y1 x y =>
    .quad (toPx xA x1) (toPx yA y1) (toPx xA x) (toPx yA y)
  | .close => .close

/-! ## Map entities and `MapSeries.getBox` -/

/-- A point's cached bounding-box record: `_minX/_maxX/_minY/_maxY`, the
derived `_midX/_midY` centre and the `labelrank`. -/
structure PointBox where
  mnX : ℚ
  mxX : ℚ
  mnY : ℚ
  mxY : ℚ
  midX : ℚ
  midY : ℚ
  labelrank : ℚ
deriving DecidableEq, Repr

/-- A map entity (point): join key, value, raw geometry, the `hc-middle-x`
style relative-offset options, an optional preset `labelrank`, the cached box
(`_foundBox` true iff `some`), and the pixel fields written by `translate`. -/
structure MapEntity where
  key : String
  value : Option ℚ
  path : Option (List Seg)
  middleX : Option ℚ
  middleY : Option ℚ
  labelrank : Option ℚ
  box : Option PointBox
  plotX : Option ℚ
  plotY : Option ℚ
  shapeD : Option (List Seg)
deriving DecidableEq, Repr

/-- The last two array slots of a segment, as read by `getBox`
(`seg[seg.length - 2]`, `seg[seg.length - 1]`): the endpoint for `M`, `L`,
`C` and `Q`; for `Z` the slots are not numbers and the segment is skipped. -/
def segLastXY : Seg → Option (ℚ × ℚ)
  | .move x y => some (x, y)
  | .line x y => some (x, y)
  | .cubic _ _ _ _ x y => some (x, y)
  | .quad _ _ x y => some (x, y)
  | .close => none

/-- A running min/max accumulator for the four box bounds. -/
structure Fold4 where
  mnX : ℚ
  mxX : ℚ
  mnY : ℚ
  mxY : ℚ
deriving DecidableEq, Repr

/-- The per-point `path.forEach` of `getBox`: fold the last coordinate pair
of each segment into the running bounds. -/
def foldBox : List Seg → Fold4 → Fold4
  | [], acc => acc
  | s :: rest, acc =>
    foldBox rest
      (match segLastXY s with
       | some (x, y) =>
         { mnX := min acc.mnX x, mxX := max acc.mxX x,
           mnY := min acc.mnY y, mxY := max acc.mxY y }
       | none => acc)

/-- The first-use box analysis of one point in `MapSeries.getBox`: when the
point has a path and no cached box, walk the path once, then cache bounds,
middle point (relative offsets defaulting to `0.5`) and `labelrank`
(defaulting to box area).  A cached point, or one without a path, is
untouched. -/
def getBoxPoint (p : MapEntity) : MapEntity :=
  match p.path with
  | none => p
  | some segs =>
    match p.box with
    | some _ => p
    | none =>
      let f := foldBox segs
        { mnX := MAX_VALUE, mxX := -MAX_VALUE, mnY := MAX_VALUE, mxY := -MAX_VALUE }
      { p with box := some (
        { mnX := f.mnX, mxX := f.mxX, mnY := f.mnY, mxY := f.mxY,
          midX := f.mnX + (f.mxX - f.mnX) * (p.middleX.getD (1 / 2)),
          midY := f.mnY + (f.mxY - f.mnY) * (p.middleY.getD (1 / 2)),
          labelrank := p.labelrank.getD ((f.mxX - f.mnX) * (f.mxY - f.mnY)) } :
          PointBox) }

/-- The series-level accumulator of `getBox`: running collection bounds, the
smallest single-entity extent seen (`minRange`), and `hasBox`. -/
structure BoxAcc where
  mxX : ℚ
  mnX : ℚ
  mxY : ℚ
  mnY : ℚ
  minRange : ℚ
  hasBox : Bool
deriving DecidableEq, Repr

/-- One iteration of the `paths.forEach` in `getBox`: points without a path
are skipped; otherwise the (now cached) point box is folded into the
collection bounds and `minRange` takes the smaller of the point's X and Y
extents. -/
def getBoxStep (acc : BoxAcc) (p : MapEntity) : MapEntity × BoxAcc :=
  match p.path with
  | none => (p, acc)
  | some _ =>
    let p' := getBoxPoint p
    match p'.box with
    | none => (p', acc)
    | some b =>
      (p', { mxX := max acc.mxX b.mxX, mnX := min acc.mnX b.mnX,
             mxY := max acc.mxY b.mxY, mnY := min acc.mnY b.mnY,
             minRange := min (b.mxX - b.mnX) (min (b.mxY - b.mnY) acc.minRange),
             hasBox := true })

/-- The full `paths.forEach` walk of `getBox`, returning the updated points
and the final accumulator. -/
def getBoxWalk : BoxAcc → List MapEntity → List MapEntity × BoxAcc
  | acc, [] => ([], acc)
  | acc, p :: rest =>
    let (p', acc') := getBoxStep acc p
    let (ps, accF) := getBoxWalk acc' rest
    (p' :: ps, accF)

/-- The initial series accumulator of `getBox`. -/
def boxAccInit : BoxAcc :=
  { mxX := -MAX_VALUE, mnX := MAX_VALUE, mxY := -MAX_VALUE, mnY := MAX_VALUE,
    minRange := MAX_VALUE, hasBox := false }

/-- The series/axis state read and written by `MapSeries.getBox`: the points,
the series aggregate bounds (undefined before the first computation), each
axis's `options.minRange` (the explicit configuration) and current
`minRange`. -/
structure SeriesBoxState where
  points : List MapEntity
  minX : Option ℚ
  maxX : Option ℚ
  minY : Option ℚ
  maxY : Option ℚ
  xMinRangeOpt : Option ℚ
  xMinRange : Option ℚ
  yMinRangeOpt : Option ℚ
  yMinRange : Option ℚ
deriving DecidableEq, Repr

/-- Highcharts `pick(a, d)`: the first defined argument. -/
def pickQ (a : Option ℚ) (d : ℚ) : ℚ := a.getD d

/-- `MapSeries.getBox`: walk all points, then — only when some point had a
path — merge the walk's bounds into the series bounds and, for each axis
whose `minRange` option is undefined, set the axis `minRange` to
`Math.min(5 * minRange, extent / 5, axis.minRange || MAX_VALUE)`. -/
def getBox (s : SeriesBoxState) : SeriesBoxState :=
  let w := getBoxWalk boxAccInit s.points
  let pts := w.1
  let acc := w.2
  if acc.hasBox then
    let minY := min acc.mnY (pickQ s.minY MAX_VALUE)
    let maxY := max acc.mxY (pickQ s.maxY (-MAX_VALUE))
    let minX := min acc.mnX (pickQ s.minX MAX_VALUE)
    let maxX := max acc.mxX (pickQ s.maxX (-MAX_VALUE))
    { s with
      points := pts, minX := some minX, maxX := some maxX,
      minY := some minY, maxY := some maxY,
      xMinRange :=
        if s.xMinRangeOpt = none then
          some (min (5 * acc.minRange)
            (min ((maxX - minX) / 5) (jsOrNum s.xMinRange MAX_VALUE)))
        else s.xMinRange,
      yMinRange :=
        if s.yMinRangeOpt = none then
          some (min (5 * acc.minRange)
            (min ((maxY - minY) / 5) (jsOrNum s.yMinRange MAX_VALUE)))
        else s.yMinRange }
  else { s with points := pts }

/-! ## `MapSeries.translate` -/

/-- Specification-modelled `Axis.toPixels(value, paddingless)` (the axis
implementation is an external collaborator of this core):
`(value - domainMin) * transA + minPixelPadding`. -/
def toPixels (a : AxisState) (v : ℚ) : ℚ :=
  (v - jsOrNum a.min 0) * a.transA + a.minPixelPadding

/-- The per-point body of `MapSeries.translate`: when the cached middle point
exists, assign `plotX`/`plotY` from it; when doing a full translate, assign
`shapeArgs.d` via `translatePath`. -/
def translatePoint (xA yA : AxisState) (doFull : Bool) (p : MapEntity) :
    MapEntity :=
  let p1 :=
    match p.box with
    | some b =>
      { p with plotX := some (toPixels xA b.midX),
               plotY := some (toPixels yA b.midY) }
    | none => p
  if doFull then { p1 with shapeD := some (translatePath xA yA p1.path) }
  else p1

/-- `MapSeries.translate`: run the per-point body over the series data. -/
def mapTranslate (xA yA : AxisState) (doFull : Bool)
    (pts : List MapEntity) : List MapEntity :=
  pts.map (translatePoint xA yA doFull)

/-! ## The `allAreas` data join (`MapSeries.setData`) -/

/-- A normalized value record entering the join: its resolved join-key value
and its numeric value. -/
structure ValueRec where
  key : String
  value : Option ℚ
deriving DecidableEq, Repr

/-- A shape record of the map data, carrying its join key at the root. -/
structure ShapeRec where
  key : String
deriving DecidableEq, Repr

/-- The `mapMap` index built by `setData`: object-property writes in map-data
order, so a later shape with the same key overwrites an earlier one. -/
def mapMapFind (shapes : List ShapeRec) (k : String) : Option ShapeRec :=
  shapes.reverse.find? (fun s => s.key = k)

/-- The `dataUsed` array of the `allAreas` branch after its final `map`: the
first pass pushes the indexed shape record of every matching value record
(mapped to its root join key); the second pass pushes every value record's
raw key value, a string, on which the root-key property access is undefined
and renders as the empty string when joined. -/
def dataUsedParts (shapes : List ShapeRec) (vals : List ValueRec) :
    List String :=
  (vals.filterMap (fun v => mapMapFind shapes v.key)).map (fun s => s.key) ++
    vals.map (fun _ => "")

/-- The `'|'` delimiter of the `dataUsed` membership string. -/
def barChar : Char := '|'

/-- The tail of `'|' + parts.join('|') + '|'` after its leading bar. -/
def joinTail : List (List Char) → List Char
  | [] => [barChar]
  | p :: ps => p ++ barChar :: joinTail ps

/-- The `dataUsed` membership string `'|' + parts.join('|') + '|'`, as a
character list. -/
def dataUsedStr (parts : List String) : List Char :=
  barChar :: joinTail (parts.map String.toList)

/-- Character-list prefix test (the head comparison of an `indexOf` probe). -/
def startsWithL : List Char → List Char → Bool
  | [], _ => true
  | _ :: _, [] => false
  | a :: as, b :: bs => a = b && startsWithL as bs

/-- `String.indexOf(pat) !== -1`: the pattern occurs somewhere in the
string. -/
def hasSubstr (pat : List Char) : List Char → Bool
  | [] => pat.isEmpty
  | c :: rest => startsWithL pat (c :: rest) || hasSubstr pat rest

/-- The containment probe of the `allAreas` branch:
`dataUsed.indexOf('|' + mapPoint[joinBy[0]] + '|') === -1` decides whether a
shape is appended as a null point. -/
def shapeUnused (shapes : List ShapeRec) (vals : List ValueRec)
    (mp : ShapeRec) : Bool :=
  !(hasSubstr (barChar :: mp.key.toList ++ [barChar])
      (dataUsedStr (dataUsedParts shapes vals)))

/-- The merged entity list produced by the `allAreas` branch of
`MapSeries.setData` under a named join key: the (normalized) value records
stay in place, and every shape whose delimited key is not found in the
`dataUsed` string is appended as a null-valued point. -/
def setDataAllAreas (shapes : List ShapeRec) (vals : List ValueRec) :
    List ValueRec :=
  vals ++ (shapes.filter (shapeUnused shapes vals)).map
    (fun mp => { key := mp.key, value := none })

/-! ## `setData` value-record normalization under a positional join -/

/-- A raw data entry handed to `setData`: a bare number, a structured object,
or a literal `null`. -/
inductive RawPoint
  | num (v : ℚ)
  | obj (r : ValueRec)
  | nullRec
deriving DecidableEq, Repr

/-- A value record after the normalization loop of `setData` under
`joinBy: null`: its value and the positional `_i` index written onto it. -/
structure IndexedRec where
  value : Option ℚ
  idx : Option Nat
deriving DecidableEq, Repr

/-- The per-entry normalization loop of `MapSeries.setData`, from position
`i`: a bare number becomes `{value: v}`; an object passes through; a `null`
entry is left as `null` by both conversions, so that when `joinBy` resolved
to the positional `'_i'` key the subsequent `data[i]._i = i` assignment is a
property write on `null` and throws a `TypeError`. -/
def setDataNormalize (joinByIndex : Bool) :
    Nat → List RawPoint → Except String (List (Option IndexedRec))
  | _, [] => Except.ok []
  | i, p :: rest =>
    match p with
    | .num v =>
      (setDataNormalize joinByIndex (i + 1) rest).map
        (fun l => some { value := some v,
                         idx := if joinByIndex then some i else none } :: l)
    | .obj r =>
      (setDataNormalize joinByIndex (i + 1) rest).map
        (fun l => some { value := r.value,
                         idx := if joinByIndex then some i else none } :: l)
    | .nullRec =>
      if joinByIndex then Except.error "TypeError"
      else
        (setDataNormalize joinByIndex (i + 1) rest).map
          (fun l => none :: l)

/-- Whether an `Except` carries a success value. -/
def exceptIsOk {ε α : Type} : Except ε α → Bool
  | Except.ok _ => true
  | Except.error _ => false

/-! ## Theorems: path translation -/

/-- C4: `MapSeries.translatePath` maps each coordinate of each segment by
`(coord - domainMin) * transA + minPixelPadding` with the x-axis state on X
and the y-axis state on Y coordinates, preserving the segment kinds 1:1; and
on the concrete scenario with both axes at `min = 0`, `transA = 10`,
`padding = 0`, the path `[Move(0,0), Line(10,0), Line(10,10), Close]`
translates to `[Move(0,0), Line(100,0), Line(100,100), Close]`. -/
theorem translatePath_spec :
    (∀ (xA yA : AxisState) (p : List Seg),
      translatePath xA yA (some p) = p.map (segTranslateSpec xA yA)) ∧
    translatePath ⟨some 0, 10, 0⟩ ⟨some 0, 10, 0⟩
        (some [.move 0 0, .line 10 0, .line 10 10, .close]) =
      [.move 0 0, .line 100 0, .line 100 100, .close] := by
  constructor
  · intro xA yA p
    induction p with
    | nil => rfl
    | cons s rest ih =>
      have ih' : translatePathSegs xA yA rest =
          rest.map (segTranslateSpec xA yA) := ih
      cases s <;>
        simp [translatePath, translatePathSegs, segTranslateSpec, toPx, ih']
  · norm_num [translatePath, translatePathSegs, jsOrNum]

/-! ## Theorems: stock compare pipeline -/

/-- C5: with a compare mode set, a defined nonzero baseline and a defined
value, `modifyValue` returns `value - baseline` in value mode and
`100 * (value / baseline) - (compareBase == 100 ? 0 : 100)` in percent mode;
concretely, percent mode with baseline `50` and value `75` yields `50`.  (The
baseline resolved by `processData` is always nonzero, since the baseline scan
skips zero values.) -/
theorem initCompare_modifyValue_spec :
    (∀ (base : Option ℚ) (c v : ℚ),
      modifyValue .value base (some c) (some v) = some (v - c)) ∧
    (∀ (base : Option ℚ) (c v : ℚ), c ≠ 0 →
      modifyValue .percent base (some c) (some v) =
        some (100 * (v / c) - (if base = some 100 then 0 else 100))) ∧
    modifyValue .percent none (some 50) (some 75) = some 50 := by
  refine ⟨fun base c v => rfl, fun base c v hc => ?_, ?_⟩
  · simp [modifyValue, hc]
  · simp [modifyValue]
    norm_num

/-- Witness for C5: percent mode at baseline `25`, value `75`,
no `compareBase`, gives `100 * 3 - 100 = 200`. -/
theorem initCompare_modifyValue_spec_instance :
    modifyValue .percent none (some 25) (some 75) = some 200 := by
  have h := initCompare_modifyValue_spec.2.1 none 25 75 (by norm_num)
  rw [h]
  simp
  norm_num

/-- C10: for a series in compare mode `value` or `percent`, the installed
`modifyValue` returns `0` — not the original value and not `undefined` —
whenever the incoming value or the resolved baseline `compareValue` is
undefined. -/
theorem initCompare_modifyValue_undefined_zero :
    ∀ (mode : CompareMode) (base cv v : Option ℚ),
      modifyValue mode base cv none = some 0 ∧
      modifyValue mode base none v = some 0 := by
  intro mode base cv v
  constructor
  · cases cv <;> rfl
  · cases v <;> rfl

/-! ## Theorems: column-pyramid zero stack height -/

/-- C7: the zero-stack-height guard of `ColumnPyramidSeries.translate` covers
only the non-inverted branch.  With an inverted chart and an inverted stack
height of zero (`topPointY = 0`, `yAxis.width = 100`,
`translatedThreshold = 100`, `barW = 10`, `barY = 50`, `barH = 20`), both
half-widths divide by zero and are non-finite (`none`), not `0`; the same
degenerate stack in the non-inverted branch (`topPointY =
translatedThreshold = 100`) is guarded and yields `(0, 0)`. -/
theorem columnpyramid_inverted_zero_stack :
    pyramidWidths ⟨10, 50, 20, 0, 100, 100, 100, true⟩ = (none, none) ∧
    pyramidWidths ⟨10, 50, 20, 100, 100, 100, 100, false⟩ =
      (some 0, some 0) := by
  constructor <;> norm_num [pyramidWidths, jsDiv]

/-! ## Theorems: fast-transform dampening -/

/-- C3 counterexample: at `scaleX = scaleY = 0.99` — inside the closed
interval `[0.99, 1.01]` claimed — the code does not snap: the scales stay
`0.99 ≠ 1` and the half-pixel translation is not rounded. -/
theorem drawPoints_snap_closed_claim_false :
    (99 / 100 : ℚ) ≤ 99 / 100 ∧ (99 / 100 : ℚ) ≤ 101 / 100 ∧
    dampenTransform ⟨99 / 100, 99 / 100, 1 / 2, 1 / 2⟩ =
      ⟨99 / 100, 99 / 100, 1 / 2, 1 / 2⟩ ∧
    (99 / 100 : ℚ) ≠ 1 := by
  refine ⟨le_refl _, by norm_num, ?_, by norm_num⟩
  rw [dampenTransform, if_neg]
  intro hc
  exact absurd hc.1 (by norm_num)

/-- C3 amended: the dampening interval is open — when both scale factors are
strictly between `0.99` and `1.01` the scales snap to exactly `1` and the
translations are rounded to the nearest integer pixel, and whenever either
scale factor is `≤ 0.99` or `≥ 1.01` the transform is applied unmodified. -/
theorem drawPoints_snap_open_interval :
    (∀ t : FastParams, 0.99 < t.scaleX → t.scaleX < 1.01 →
      0.99 < t.scaleY → t.scaleY < 1.01 →
      dampenTransform t =
        ⟨1, 1, jsRound t.translateX, jsRound t.translateY⟩) ∧
    (∀ t : FastParams,
      t.scaleX ≤ 0.99 ∨ 1.01 ≤ t.scaleX ∨ t.scaleY ≤ 0.99 ∨ 1.01 ≤ t.scaleY →
      dampenTransform t = t) := by
  constructor
  · intro t h1 h2 h3 h4
    rw [dampenTransform, if_pos ⟨h1, h2, h3, h4⟩]
  · intro t h
    rw [dampenTransform, if_neg]
    intro hc
    rcases h with h | h | h | h
    · exact absurd hc.1 (not_lt.mpr h)
    · exact absurd hc.2.1 (not_lt.mpr h)
    · exact absurd hc.2.2.1 (not_lt.mpr h)
    · exact absurd hc.2.2.2 (not_lt.mpr h)

/-- Witness for C3: a scale of exactly `1` on both axes is snapped and the
translations `7/2` and `-3/2` round to `4` and `-1`; a scale of `2` on X is
left untouched. -/
theorem drawPoints_snap_open_interval_instance :
    dampenTransform ⟨1, 1, 7 / 2, -3 / 2⟩ = ⟨1, 1, 4, -1⟩ ∧
    dampenTransform ⟨2, 1, 5, 5⟩ = ⟨2, 1, 5, 5⟩ := by
  constructor
  · have h := drawPoints_snap_open_interval.1 ⟨1, 1, 7 / 2, -3 / 2⟩
      (by norm_num) (by norm_num) (by norm_num) (by norm_num)
    rw [h]
    norm_num [jsRound]
  · exact drawPoints_snap_open_interval.2 ⟨2, 1, 5, 5⟩
      (Or.inr (Or.inl (by norm_num)))

/-! ## Theorems: null record under a positional join -/

/-- C8 counterexample: joining the value dataset `[1, null, 3]` by positional
index (`joinBy: null`) does not complete: the normalization loop fails on the
`null` entry, so no merged collection of length 3 is produced. -/
theorem setData_null_positional_claim_false :
    exceptIsOk (setDataNormalize true 0 [.num 1, .nullRec, .num 3]) =
      false := by
  rfl

/-- C8 amended: under `joinBy: null` every record is assigned the positional
`_i` key, and the bare `null` entry of `[1, null, 3]` is still `null` when
the loop reaches it, so the `data[i]._i = i` property write throws a
`TypeError` and the join never reaches the merge. -/
theorem setData_null_positional_throws :
    setDataNormalize true 0 [.num 1, .nullRec, .num 3] =
      Except.error "TypeError" := by
  rfl

/-! ## Theorems: translate idempotence -/

/-- One application of the per-point translate body is idempotent: the second
run reads only fields (`box`, `path`) that the first run left untouched. -/
lemma translatePoint_idem (xA yA : AxisState) (doFull : Bool)
    (p : MapEntity) :
    translatePoint xA yA doFull (translatePoint xA yA doFull p) =
      translatePoint xA yA doFull p := by
  cases p with
  | mk key value path middleX middleY labelrank box plotX plotY shapeD =>
    cases box <;> cases doFull <;> simp [translatePoint]

/-- C9: running `MapSeries.translate` twice over the same entity list with
the same axis state and the same full/fast decision assigns bit-identical
pixel geometry (`plotX`, `plotY`, `shapeArgs.d`) both times: the second run
reproduces the first run's output exactly. -/
theorem mapTranslate_idempotent :
    ∀ (xA yA : AxisState) (doFull : Bool) (pts : List MapEntity),
      mapTranslate xA yA doFull (mapTranslate xA yA doFull pts) =
        mapTranslate xA yA doFull pts := by
  intro xA yA doFull pts
  induction pts with
  | nil => rfl
  | cons p rest ih =>
    simp only [mapTranslate, List.map_cons] at ih ⊢
    rw [translatePoint_idem]
    exact congrArg _ ih

/-! ## Theorems: point bounding-box computation -/

/-- Threading a `min` through a running fold. -/
lemma foldr_min_min (l : List ℚ) (a x : ℚ) :
    l.foldr min (min a x) = min x (l.foldr min a) := by
  induction l with
  | nil => exact min_comm a x
  | cons c l ih => simp [List.foldr_cons, ih, min_left_comm]

/-- Threading a `max` through a running fold. -/
lemma foldr_max_max (l : List ℚ) (a x : ℚ) :
    l.foldr max (max a x) = max x (l.foldr max a) := by
  induction l with
  | nil => exact max_comm a x
  | cons c l ih => simp [List.foldr_cons, ih, max_left_comm]

/-- The `getBox` path walk equals, component-wise, a fold of `min`/`max` over
the segments' final coordinate pairs. -/
lemma foldBox_eq (segs : List Seg) (acc : Fold4) :
    foldBox segs acc =
      { mnX := ((segs.filterMap segLastXY).map Prod.fst).foldr min acc.mnX,
        mxX := ((segs.filterMap segLastXY).map Prod.fst).foldr max acc.mxX,
        mnY := ((segs.filterMap segLastXY).map Prod.snd).foldr min acc.mnY,
        mxY := ((segs.filterMap segLastXY).map Prod.snd).foldr max acc.mxY } := by
  induction segs generalizing acc with
  | nil => rfl
  | cons s rest ih =>
    cases s <;>
      simp [foldBox, segLastXY, ih, foldr_min_min, foldr_max_max]

/-- C2 counterexample: for a path consisting of one cubic segment whose
control points sit at `x = 5` but whose endpoint is `(0,0)`, the cached box
has `maxX = 0`: the control-point coordinate `5` is outside the cached box,
so the box does not bound all coordinates of the raw geometry. -/
theorem getBox_controlPoints_claim_false :
    ((getBoxPoint ⟨"", none, some [.cubic 5 7 5 7 0 0], none, none, none,
        none, none, none, none⟩).box.map PointBox.mxX) = some 0 ∧
    ¬ ((5 : ℚ) ≤ 0) := by
  constructor
  · simp [getBoxPoint, foldBox, segLastXY]
    norm_num [MAX_VALUE, max_def]
  · norm_num

/-- C2 amended: for every entity whose box is not yet cached, `getBox` folds
only the final coordinate pair of each path segment (the endpoint — Bezier
control points are not folded) into the running min/max bounds, and caches
the result: an entity with a cached box is returned untouched and the
analysis is idempotent, so the geometry is walked only once. -/
theorem getBox_endpoint_fold :
    (∀ (p : MapEntity) (segs : List Seg) (b : PointBox),
      p.path = some segs → p.box = none → (getBoxPoint p).box = some b →
      b.mnX = ((segs.filterMap segLastXY).map Prod.fst).foldr min MAX_VALUE ∧
      b.mxX =
        ((segs.filterMap segLastXY).map Prod.fst).foldr max (-MAX_VALUE) ∧
      b.mnY = ((segs.filterMap segLastXY).map Prod.snd).foldr min MAX_VALUE ∧
      b.mxY =
        ((segs.filterMap segLastXY).map Prod.snd).foldr max (-MAX_VALUE)) ∧
    (∀ p : MapEntity, p.box.isSome = true → getBoxPoint p = p) ∧
    (∀ p : MapEntity, getBoxPoint (getBoxPoint p) = getBoxPoint p) := by
  refine ⟨?_, ?_, ?_⟩
  · intro p segs b hpath hbox hsome
    simp only [getBoxPoint, hpath, hbox] at hsome
    rw [foldBox_eq] at hsome
    simp only [Option.some.injEq] at hsome
    subst hsome
    exact ⟨rfl, rfl, rfl, rfl⟩
  · intro p h
    rcases hbox : p.box with _ | bb
    · rw [hbox] at h; cases h
    · cases hpath : p.path <;> simp [getBoxPoint, hpath, hbox]
  · intro p
    rcases hpath : p.path with _ | segs
    · simp [getBoxPoint, hpath]
    · rcases hbox : p.box with _ | bb
      · simp [getBoxPoint, hpath, hbox]
      · simp [getBoxPoint, hpath, hbox]

/-- Witness for C2: the entity with path `[Move(1,2), Line(3,4)]` and no
cached box gets the box `minX=1, maxX=3, minY=2, maxY=4`, matching the
endpoint folds. -/
theorem getBox_endpoint_fold_instance :
    (PointBox.mk 1 3 2 4 2 3 4).mnX =
      ((([Seg.move 1 2, Seg.line 3 4]).filterMap segLastXY).map
        Prod.fst).foldr min MAX_VALUE ∧
    (PointBox.mk 1 3 2 4 2 3 4).mxX =
      ((([Seg.move 1 2, Seg.line 3 4]).filterMap segLastXY).map
        Prod.fst).foldr max (-MAX_VALUE) ∧
    (PointBox.mk 1 3 2 4 2 3 4).mnY =
      ((([Seg.move 1 2, Seg.line 3 4]).filterMap segLastXY).map
        Prod.snd).foldr min MAX_VALUE ∧
    (PointBox.mk 1 3 2 4 2 3 4).mxY =
      ((([Seg.move 1 2, Seg.line 3 4]).filterMap segLastXY).map
        Prod.snd).foldr max (-MAX_VALUE) :=
  getBox_endpoint_fold.1
    ⟨"w", none, some [.move 1 2, .line 3 4], none, none, none, none, none,
      none, none⟩
    [.move 1 2, .line 3 4] ⟨1, 3, 2, 4, 2, 3, 4⟩ rfl rfl
    (by simp [getBoxPoint, foldBox, segLastXY]
        norm_num [MAX_VALUE, min_def, max_def])

/-! ## Theorems: series box and the `minRange` heuristic -/

/-- A point with a path always has a cached box after the analysis. -/
lemma getBoxPoint_isSome (p : MapEntity) (h : p.path.isSome = true) :
    ((getBoxPoint p).box).isSome = true := by
  rcases hpath : p.path with _ | segs
  · rw [hpath] at h; cases h
  · rcases hbox : p.box with _ | bb <;> simp [getBoxPoint, hpath, hbox]

/-- Specification-side extent of one entity: the smaller of its cached box's
X and Y extents, defined for entities with geometry. -/
def entityExtent (p : MapEntity) : Option ℚ :=
  match p.path with
  | none => none
  | some _ =>
    match (getBoxPoint p).box with
    | some b => some (min (b.mxX - b.mnX) (b.mxY - b.mnY))
    | none => none

/-- Specification-side smallest single-entity extent of a collection. -/
def smallestExtent (pts : List MapEntity) : ℚ :=
  (pts.filterMap entityExtent).foldr min MAX_VALUE

/-- Whether any entity of the collection carries geometry. -/
def hasAnyPath (pts : List MapEntity) : Bool :=
  pts.any (fun p => p.path.isSome)

/-- The `getBox` walk accumulator in closed form: its `minRange` is the fold
of `min` over the entity extents and `hasBox` records whether any walked
point had a path. -/
lemma getBoxWalk_acc :
    ∀ (pts : List MapEntity) (acc : BoxAcc),
      ((getBoxWalk acc pts).2).minRange =
        (pts.filterMap entityExtent).foldr min acc.minRange ∧
      ((getBoxWalk acc pts).2).hasBox =
        (acc.hasBox || pts.any (fun p => p.path.isSome)) := by
  intro pts
  induction pts with
  | nil => intro acc; simp [getBoxWalk]
  | cons p rest ih =>
    intro acc
    rcases hpath : p.path with _ | segs
    · have h := ih acc
      simp [getBoxWalk, getBoxStep, hpath, entityExtent, h.1, h.2]
    · have hsome := getBoxPoint_isSome p (by rw [hpath]; rfl)
      rcases hbox : (getBoxPoint p).box with _ | b
      · rw [hbox] at hsome; cases hsome
      · have h := ih
          { mxX := max acc.mxX b.mxX, mnX := min acc.mnX b.mnX,
            mxY := max acc.mxY b.mxY, mnY := min acc.mnY b.mnY,
            minRange := min (b.mxX - b.mnX)
              (min (b.mxY - b.mnY) acc.minRange),
            hasBox := true }
        constructor
        · simp only [getBoxWalk, getBoxStep, hpath, hbox, h.1]
          have hinit :
              min (b.mxX - b.mnX) (min (b.mxY - b.mnY) acc.minRange) =
              min acc.minRange (min (b.mxX - b.mnX) (b.mxY - b.mnY)) := by
            rw [← min_assoc, min_comm]
          rw [hinit, foldr_min_min]
          simp [entityExtent, hpath, hbox]
        · simp [getBoxWalk, getBoxStep, hpath, hbox, h.2]

/-- C6 counterexample: a collection with one entity of extent `10` on each
axis (total extent `10`), with no configured `minRange` option but a
previously set axis `minRange` of `0`.  The code sets the x-axis `minRange`
to `2`, whereas the minimum of the three claimed quantities — `5·10`,
`10/5`, and the previously set `0` — is `0`: a previously set `minRange` of
`0` is falsy and dropped. -/
theorem getBox_minRange_claim_false :
    (getBox
      { points := [⟨"p", none, some [.move 0 0, .line 10 10], none, none,
          none, none, none, none, none⟩],
        minX := none, maxX := none, minY := none, maxY := none,
        xMinRangeOpt := none, xMinRange := some 0,
        yMinRangeOpt := some 1, yMinRange := none }).xMinRange = some 2 ∧
    min ((5 : ℚ) * 10) (min ((10 - 0) / 5) 0) = 0 ∧ (2 : ℚ) ≠ 0 := by
  refine ⟨?_, by norm_num [min_def], by norm_num⟩
  simp [getBox, getBoxWalk, getBoxStep, getBoxPoint, foldBox, segLastXY,
    boxAccInit, pickQ, jsOrNum]
  norm_num [MAX_VALUE, min_def, max_def]

/-- C6 amended: whenever `getBox` sees at least one entity with geometry and
the axis has no explicitly configured `minRange` option, it sets the axis's
`minRange` to the minimum of 5× the smallest single-entity extent, 1/5 of
the total collection extent on that axis, and any previously set *nonzero*
`minRange` — a previous `minRange` of `0` is falsy and ignored, like an
unset one (`axis.minRange || MAX_VALUE`).  With a configured `minRange`
option the axis `minRange` is left unchanged. -/
theorem getBox_minRange_spec :
    (∀ s : SeriesBoxState, s.xMinRangeOpt = none →
      hasAnyPath s.points = true →
      (getBox s).xMinRange = some (min (5 * smallestExtent s.points)
        (min (((getBox s).maxX.getD 0 - (getBox s).minX.getD 0) / 5)
          (jsOrNum s.xMinRange MAX_VALUE)))) ∧
    (∀ s : SeriesBoxState, s.xMinRangeOpt ≠ none →
      (getBox s).xMinRange = s.xMinRange) := by
  constructor
  · intro s hopt hpaths
    have hacc := getBoxWalk_acc s.points boxAccInit
    have hhas : ((getBoxWalk boxAccInit s.points).2).hasBox = true := by
      rw [hacc.2]
      simpa [boxAccInit, hasAnyPath] using hpaths
    have hmr : ((getBoxWalk boxAccInit s.points).2).minRange =
        smallestExtent s.points := by
      rw [hacc.1]; rfl
    simp only [getBox, hhas, hopt, if_true, hmr]
    simp
  · intro s hopt
    have hne : ¬ (s.xMinRangeOpt = none) := hopt
    rcases hhas : ((getBoxWalk boxAccInit s.points).2).hasBox with _ | _
    · simp [getBox, hhas]
    · simp [getBox, hhas, hne]

/-- Witness for C6: on a one-entity collection of extent `10` with a
previously set `minRange` of `3` and no configured option, the x-axis
`minRange` becomes the stated minimum; with a configured `minRange` option
(`7`) the previously set value `9` is untouched. -/
theorem getBox_minRange_spec_instance :
    (getBox
      { points := [⟨"p", none, some [.move 0 0, .line 10 10], none, none,
          none, none, none, none, none⟩],
        minX := none, maxX := none, minY := none, maxY := none,
        xMinRangeOpt := none, xMinRange := some 3,
        yMinRangeOpt := some 1, yMinRange := none }).xMinRange =
      some (min (5 * smallestExtent
          [⟨"p", none, some [.move 0 0, .line 10 10], none, none,
            none, none, none, none, none⟩])
        (min (((getBox
          { points := [⟨"p", none, some [.move 0 0, .line 10 10], none, none,
              none, none, none, none, none⟩],
            minX := none, maxX := none, minY := none, maxY := none,
            xMinRangeOpt := none, xMinRange := some 3,
            yMinRangeOpt := some 1, yMinRange := none }).maxX.getD 0 -
          (getBox
          { points := [⟨"p", none, some [.move 0 0, .line 10 10], none, none,
              none, none, none, none, none⟩],
            minX := none, maxX := none, minY := none, maxY := none,
            xMinRangeOpt := none, xMinRange := some 3,
            yMinRangeOpt := some 1, yMinRange := none }).minX.getD 0) / 5)
          (jsOrNum (some 3) MAX_VALUE))) ∧
    (getBox
      { points := [], minX := none, maxX := none, minY := none, maxY := none,
        xMinRangeOpt := some 7, xMinRange := some 9,
        yMinRangeOpt := none, yMinRange := none }).xMinRange = some 9 := by
  constructor
  · exact getBox_minRange_spec.1 _ rfl rfl
  · exact (getBox_minRange_spec.2 _ (by simp)).trans rfl

/-! ## Theorems: the `allAreas` join count -/

/-- A delimiter-terminated pattern matches at a delimiter-terminated position
exactly on key equality, provided neither side contains the delimiter. -/
lemma startsWith_key :
    ∀ (k p rest : List Char), barChar ∉ k → barChar ∉ p →
      (startsWithL (k ++ [barChar]) (p ++ barChar :: rest) = true ↔ k = p) := by
  intro k
  induction k with
  | nil =>
    intro p rest _ hp
    cases p with
    | nil => simp [startsWithL]
    | cons c p' =>
      have hc : ¬ (barChar = c) := fun h => hp (h ▸ List.mem_cons_self _ _)
      simp [startsWithL, hc]
  | cons d k' ih =>
    intro p rest hk hp
    have hd : ¬ (d = barChar) :=
      fun h => hk (h ▸ List.mem_cons_self _ _)
    cases p with
    | nil => simp [startsWithL, hd]
    | cons c p' =>
      have hk' : barChar ∉ k' := fun h => hk (List.mem_cons_of_mem _ h)
      have hp' : barChar ∉ p' := fun h => hp (List.mem_cons_of_mem _ h)
      simp [startsWithL, ih p' rest hk' hp', List.cons_eq_cons]

/-- A pattern that begins with the delimiter cannot match inside a
delimiter-free prefix. -/
lemma hasSubstr_skip :
    ∀ (p s k : List Char), barChar ∉ p →
      hasSubstr (barChar :: k) (p ++ s) = hasSubstr (barChar :: k) s := by
  intro p
  induction p with
  | nil => intro s k _; rfl
  | cons c p' ih =>
    intro s k hp
    have hc : ¬ (barChar = c) := fun h => hp (h ▸ List.mem_cons_self _ _)
    have hp' : barChar ∉ p' := fun h => hp (List.mem_cons_of_mem _ h)
    simp [hasSubstr, startsWithL, hc, ih s k hp']

/-- The delimited membership probe over a joined string is exactly list
membership, for a nonempty delimiter-free key over delimiter-free parts. -/
lemma hasSubstr_joinTail :
    ∀ (parts : List (List Char)) (k : List Char), k ≠ [] → barChar ∉ k →
      (∀ p ∈ parts, barChar ∉ p) →
      (hasSubstr (barChar :: (k ++ [barChar])) (barChar :: joinTail parts) =
          true ↔ k ∈ parts) := by
  intro parts
  induction parts with
  | nil =>
    intro k hne hk _
    cases k with
    | nil => exact absurd rfl hne
    | cons d k'' =>
      have hd : ¬ (d = barChar) :=
        fun h => hk (h ▸ List.mem_cons_self _ _)
      simp [joinTail, hasSubstr, startsWithL, hd]
  | cons p ps ih =>
    intro k hne hk hparts
    have hp : barChar ∉ p := hparts p (List.mem_cons_self _ _)
    have hps : ∀ q ∈ ps, barChar ∉ q :=
      fun q hq => hparts q (List.mem_cons_of_mem _ hq)
    have hstep :
        hasSubstr (barChar :: (k ++ [barChar]))
            (barChar :: joinTail (p :: ps)) =
          (startsWithL (k ++ [barChar]) (p ++ barChar :: joinTail ps) ||
            hasSubstr (barChar :: (k ++ [barChar]))
              (barChar :: joinTail ps)) := by
      have h1 : hasSubstr (barChar :: (k ++ [barChar]))
          (barChar :: joinTail (p :: ps)) =
          (startsWithL (barChar :: (k ++ [barChar]))
              (barChar :: joinTail (p :: ps)) ||
            hasSubstr (barChar :: (k ++ [barChar])) (joinTail (p :: ps))) :=
        rfl
      rw [h1]
      have h2 : joinTail (p :: ps) = p ++ barChar :: joinTail ps := rfl
      rw [h2, hasSubstr_skip p _ _ hp]
      simp [startsWithL]
    rw [hstep]
    rw [Bool.or_eq_true]
    rw [startsWith_key k p _ hk hp, ih k hne hk hps]
    simp [List.mem_cons, eq_comm]

/-- A `mapMap` hit returns a shape whose key is the probed key. -/
lemma mapMapFind_key {shapes : List ShapeRec} {k : String} {s : ShapeRec}
    (h : mapMapFind shapes k = some s) : s.key = k := by
  have := List.find?_some h
  simpa using this

/-- A `mapMap` hit is a shape of the map data. -/
lemma mapMapFind_mem {shapes : List ShapeRec} {k : String} {s : ShapeRec}
    (h : mapMapFind shapes k = some s) : s ∈ shapes := by
  have := List.mem_of_find?_eq_some h
  simpa using this

/-- Probing `mapMap` with the key of one of its shapes succeeds. -/
lemma mapMapFind_isSome {shapes : List ShapeRec} {s : ShapeRec}
    (hs : s ∈ shapes) : (mapMapFind shapes s.key).isSome = true := by
  rw [mapMapFind, List.find?_isSome]
  exact ⟨s, by simpa using hs, by simp⟩

/-- Strings with equal character lists are equal. -/
lemma toList_inj {a b : String} (h : a.toList = b.toList) : a = b :=
  String.ext h

/-- For a shape of the map data with a nonempty key, the `dataUsed` probe of
the `allAreas` branch succeeds exactly when some value record carries that
shape's key. -/
lemma shapeUnused_eq (shapes : List ShapeRec) (vals : List ValueRec)
    (s : ShapeRec) (hs : s ∈ shapes) (hne : s.key ≠ "")
    (hbar : barChar ∉ s.key.toList)
    (hall : ∀ s' ∈ shapes, barChar ∉ s'.key.toList) :
    shapeUnused shapes vals s = !(vals.any (fun v => v.key = s.key)) := by
  have hklist : s.key.toList ≠ [] := by
    intro h
    exact hne (toList_inj (by simpa using h))
  have hparts : ∀ p ∈ (dataUsedParts shapes vals).map String.toList,
      barChar ∉ p := by
    intro p hp
    rcases List.mem_map.mp hp with ⟨str, hstr, rfl⟩
    rcases List.mem_append.mp hstr with hm | hm
    · rcases List.mem_map.mp hm with ⟨sh, hsh, rfl⟩
      rcases List.mem_filterMap.mp hsh with ⟨v, _, hfind⟩
      exact hall sh (mapMapFind_mem hfind)
    · rcases List.mem_map.mp hm with ⟨v, _, rfl⟩
      simp
  have hmem :
      (hasSubstr (barChar :: (s.key.toList ++ [barChar]))
          (barChar :: joinTail ((dataUsedParts shapes vals).map
            String.toList)) = true) ↔
        (vals.any (fun v => v.key = s.key) = true) := by
    rw [hasSubstr_joinTail _ _ hklist hbar hparts]
    constructor
    · intro hmem
      rcases List.mem_map.mp hmem with ⟨str, hstr, hlist⟩
      have hstr' : str = s.key := toList_inj hlist
      subst hstr'
      rcases List.mem_append.mp hstr with hm | hm
      · rcases List.mem_map.mp hm with ⟨sh, hsh, hkeq⟩
        rcases List.mem_filterMap.mp hsh with ⟨v, hv, hfind⟩
        have : v.key = s.key := by rw [← hkeq]; exact (mapMapFind_key hfind).symm ▸ rfl
        rw [List.any_eq_true]
        exact ⟨v, hv, by simp [mapMapFind_key hfind ▸ hkeq]⟩
      · rcases List.mem_map.mp hm with ⟨v, _, habs⟩
        exact absurd habs.symm hne
    · intro hany
      rcases List.any_eq_true.mp hany with ⟨v, hv, hkeq⟩
      have hkeq' : v.key = s.key := by simpa using hkeq
      have hsome := mapMapFind_isSome hs
      rcases hfound : mapMapFind shapes s.key with _ | sh
      · rw [hfound] at hsome; cases hsome
      · have hshkey : sh.key = s.key := mapMapFind_key hfound
        apply List.mem_map.mpr
        refine ⟨sh.key, ?_, by rw [hshkey]⟩
        apply List.mem_append.mpr
        left
        apply List.mem_map.mpr
        refine ⟨sh, ?_, rfl⟩
        apply List.mem_filterMap.mpr
        exact ⟨v, hv, by rw [hkeq']; exact hfound⟩
  rw [shapeUnused, dataUsedStr]
  cases hq : vals.any (fun v => v.key = s.key) with
  | true =>
    exact congrArg Bool.not (hmem.mpr hq)
  | false =>
    have hfalse : hasSubstr (barChar :: (s.key.toList ++ [barChar]))
        (barChar :: joinTail ((dataUsedParts shapes vals).map
          String.toList)) = false := by
      cases hcase : hasSubstr (barChar :: (s.key.toList ++ [barChar]))
          (barChar :: joinTail ((dataUsedParts shapes vals).map
            String.toList)) with
      | true =>
        rw [hmem.mp hcase] at hq
        cases hq
      | false => rfl
    exact congrArg Bool.not hfalse

/-- C1 counterexample: one shape keyed `"a"` joined with one value record
keyed `"b"` under `allAreas` yields 2 merged entities, not `|S| = 1`: the
unmatched value record is kept in the merged list and the unmatched shape is
appended as a null point, so the merged count exceeds the shape count. -/
theorem setData_allAreas_count_claim_false :
    (setDataAllAreas [⟨"a"⟩] [⟨"b", some 1⟩]).length = 2 ∧
    ([(⟨"a"⟩ : ShapeRec)]).length = 1 := by
  constructor
  · rfl
  · rfl

/-- C1 amended: with `allAreas` enabled the merged entity count is
`|V| + |{shapes whose key no value record carries}|` — every value record is
kept (matched or not) and exactly the shapes not referenced by any value
record are appended as null points.  This equals `|S|` only when the value
records match shapes bijectively.  (Keys are assumed nonempty and free of the
`'|'` delimiter that the `dataUsed` membership string reserves.) -/
theorem setData_allAreas_count :
    ∀ (shapes : List ShapeRec) (vals : List ValueRec),
      (∀ s ∈ shapes, s.key ≠ "" ∧ barChar ∉ s.key.toList) →
      (setDataAllAreas shapes vals).length =
        vals.length +
          (shapes.filter
            (fun s => !(vals.any (fun v => v.key = s.key)))).length := by
  intro shapes vals hkeys
  rw [setDataAllAreas, List.length_append, List.length_map]
  congr 1
  apply congrArg List.length
  apply List.filter_congr
  intro s hs
  exact shapeUnused_eq shapes vals s hs (hkeys s hs).1 (hkeys s hs).2
    (fun s' hs' => (hkeys s' hs').2)

/-- Witness for C1: shapes `a, c` joined with the single value record `a`
give the claimed count (1 value record plus 1 unreferenced shape). -/
theorem setData_allAreas_count_instance :
    (setDataAllAreas [⟨"a"⟩, ⟨"c"⟩] [⟨"a", some 1⟩]).length =
      ([(⟨"a", some 1⟩ : ValueRec)]).length +
        (([⟨"a"⟩, ⟨"c"⟩] : List ShapeRec).filter
          (fun s => !(([(⟨"a", some 1⟩ : ValueRec)]).any
            (fun v => v.key = s.key)))).length :=
  setData_allAreas_count [⟨"a"⟩, ⟨"c"⟩] [⟨"a", some 1⟩] (by decide)
